import Mathlib

/-!
# Feeder ingestion pipeline: shallow embedding and verification

This file embeds the feed-ingestion and date-normalization pipeline of the
`feeder` repository (the `main` package: `parseDate`, `parseDateWithFormat`,
`getRSSFeed`, `getAtomFeed`, and the ingestion loop in `main`, together with
the SQL behaviour of `CreatePost` (insert-or-ignore against the
`unique (url, feed_id)` constraint), `UpdateFeedFormat` and `UpdateFeedDate`).

External effects are abstracted:
* Go's `time.Parse` and `time.Time.Format(time.RFC3339)` are a parameter
  (`GoTime`): the pipeline's control flow never inspects timestamps, only
  threads them through, so every theorem is stated for an arbitrary such
  oracle.
* The network fetch plus XML unmarshal (`parseFeed`) is a parameter
  (`FetchEnv`) mapping a URL to either a decoded structure or an error.
* `log.Fatal` is modelled as aborting the run with an explicit `Halt` signal;
  the `fmt.Printf`-and-continue paths are modelled by recording the skipped
  item and carrying on.
* Each call the coordinator makes into the store (`queries.CreatePost`,
  `queries.UpdateFeedFormat`, `queries.UpdateFeedDate`) is additionally
  recorded, in order, as a `DBOp` in a trace, so that "written at most once,
  after the batch" claims are about the actual sequence of store calls.
-/

namespace Feeder

/-- Abstraction of the Go `time` package as used by the pipeline:
`parse layout value` is `time.Parse(layout, value)` (`none` = parse error),
and `formatRFC3339 t` is `t.Format(time.RFC3339)`.  Timestamps are an
opaque `Nat`. -/
structure GoTime where
  parse : String → String → Option Nat
  formatRFC3339 : Nat → String

/-- Go's `time.RFC3339` layout constant. -/
def RFC3339 : String := "2006-01-02T15:04:05Z07:00"

/-- Go's `time.RFC1123Z` layout constant. -/
def RFC1123Z : String := "Mon, 02 Jan 2006 15:04:05 -0700"

/-- Go's `time.RFC1123` layout constant. -/
def RFC1123 : String := "Mon, 02 Jan 2006 15:04:05 MST"

/-- Go's `time.RFC822Z` layout constant. -/
def RFC822Z : String := "02 Jan 06 15:04 -0700"

/-- Go's `time.RFC822` layout constant. -/
def RFC822 : String := "02 Jan 06 15:04 MST"

/-- The candidate list `formats` local to `parseDate`, in source order. -/
def formats : List String :=
  [RFC3339, RFC1123Z, RFC1123, RFC822Z, RFC822,
   "2006-01-02 15:04:05", "2006-01-02"]

/-- The `for _, format := range formats` loop body of `parseDate`:
return the first layout in the list that parses, with its parse result. -/
def tryFormats (G : GoTime) (dateStr : String) : List String → Option (Nat × String)
  | [] => none
  | format :: rest =>
    match G.parse format dateStr with
    | some t => some (t, format)
    | none => tryFormats G dateStr rest

/-- `parseDate` from the source: scan the fixed `formats` list, first match
wins; `none` models returning the `unable to parse date` error. -/
def parseDate (G : GoTime) (dateStr : String) : Option (Nat × String) :=
  tryFormats G dateStr formats

/-- Go's `sql.NullString`. -/
structure NullString where
  string : String
  valid : Bool
deriving DecidableEq

/-- `parseDateWithFormat` from the source: try the per-feed hint first when
it is valid and non-empty, fall back to the `parseDate` scan. -/
def parseDateWithFormat (G : GoTime) (dateStr : String) (knownFormat : NullString) :
    Option (Nat × String) :=
  if knownFormat.valid = true ∧ knownFormat.string ≠ "" then
    match G.parse knownFormat.string dateStr with
    | some t => some (t, knownFormat.string)
    | none => parseDate G dateStr
  else
    parseDate G dateStr

/-- `RSSItem` from the source. -/
structure RSSItem where
  title : String
  link : String
  published : String
deriving DecidableEq

/-- `Channel` from the source. -/
structure Channel where
  items : List RSSItem
  lastUpdated : String
deriving DecidableEq

/-- `RSS` from the source. -/
structure RSS where
  channel : Channel
deriving DecidableEq

/-- `AtomLink` from the source (`href` attribute). -/
structure AtomLink where
  href : String
deriving DecidableEq

/-- `AtomItem` from the source. -/
structure AtomItem where
  title : String
  link : AtomLink
  published : String
deriving DecidableEq

/-- `Atom` from the source. -/
structure Atom where
  items : List AtomItem
  lastUpdated : String
deriving DecidableEq

/-- `NormalizedItem` from the source. -/
structure NormalizedItem where
  title : String
  url : String
  published : String
deriving DecidableEq

instance : Inhabited NormalizedItem := ⟨⟨"", "", ""⟩⟩

/-- The item-normalization loop of `getRSSFeed` (source lines building
`items[i]` from `rss.Channel.Items`). -/
def normalizeRSS (c : Channel) : List NormalizedItem :=
  c.items.map fun item =>
    { title := item.title, url := item.link, published := item.published }

/-- The item-normalization loop of `getAtomFeed`: the URL is the `href`
attribute of the entry's link. -/
def normalizeAtom (a : Atom) : List NormalizedItem :=
  a.items.map fun item =>
    { title := item.title, url := item.link.href, published := item.published }

/-- Abstraction of `parseFeed` (HTTP GET + `xml.Unmarshal`): maps a URL to
the decoded structure, or to an error string for any fetch/decode failure. -/
structure FetchEnv where
  fetchRSS : String → Except String RSS
  fetchAtom : String → Except String Atom

/-- `getRSSFeed` from the source, over the fetch abstraction. -/
def getRSSFeed (E : FetchEnv) (url : String) :
    Except String (String × List NormalizedItem) :=
  match E.fetchRSS url with
  | Except.error e => Except.error e
  | Except.ok rss => Except.ok (rss.channel.lastUpdated, normalizeRSS rss.channel)

/-- `getAtomFeed` from the source, over the fetch abstraction. -/
def getAtomFeed (E : FetchEnv) (url : String) :
    Except String (String × List NormalizedItem) :=
  match E.fetchAtom url with
  | Except.error e => Except.error e
  | Except.ok atom => Except.ok (atom.lastUpdated, normalizeAtom atom)

/-- A row of the `post` table (the columns written by ingestion; the
`is_archived` and `is_starred` flags are never touched by this pipeline). -/
structure Post where
  title : String
  url : String
  publishedAt : String
  feedId : Nat
deriving DecidableEq

/-- A row of the `feed` table, as surfaced to Go by sqlc (`ListFeeds`). -/
structure Feed where
  id : Nat
  name : String
  lastUpdatedAt : NullString
  url : String
  feedType : String
  dateFormat : NullString
deriving DecidableEq

/-- The persistent store: the `feed` and `post` tables. -/
structure DB where
  feeds : List Feed
  posts : List Post
deriving DecidableEq

/-- `(url, feed_id)` — the column pair the `post` table's `unique`
constraint is on — is already present. -/
def hasKey (posts : List Post) (url : String) (feedId : Nat) : Prop :=
  ∃ q ∈ posts, q.url = url ∧ q.feedId = feedId

instance (posts : List Post) (url : String) (feedId : Nat) :
    Decidable (hasKey posts url feedId) :=
  List.decidableBEx _ posts

/-- The `CreatePost` query: `insert or ignore into post ...` against
`unique (url, feed_id)` — a conflicting insert is a silent no-op. -/
def createPost (posts : List Post) (p : Post) : List Post :=
  if hasKey posts p.url p.feedId then posts else posts ++ [p]

/-- The `UpdateFeedFormat` query: `update feed set date_format = ? where id = ?`. -/
def updateFeedFormat (db : DB) (id : Nat) (dateFormat : NullString) : DB :=
  { db with
    feeds := db.feeds.map fun f =>
      if f.id = id then { f with dateFormat := dateFormat } else f }

/-- The `UpdateFeedDate` query: `update feed set last_updated_at = ? where id = ?`. -/
def updateFeedDate (db : DB) (id : Nat) (lastUpdatedAt : NullString) : DB :=
  { db with
    feeds := db.feeds.map fun f =>
      if f.id = id then { f with lastUpdatedAt := lastUpdatedAt } else f }

/-- One call made by the coordinator into the store, recorded in order. -/
inductive DBOp where
  | createPost (p : Post)
  | updateFeedFormat (id : Nat) (dateFormat : NullString)
  | updateFeedDate (id : Nat) (lastUpdatedAt : NullString)
deriving DecidableEq

/-- The mutable state of the per-feed item loop in `main`: the `post` table
contents, the `detectedFormat` and `needsFormatUpdate` locals, plus
instrumentation — the items skipped by the log-and-continue path and the
trace of store calls issued so far. -/
structure ItemLoopState where
  posts : List Post
  detectedFormat : String
  needsFormatUpdate : Bool
  skipped : List NormalizedItem
  ops : List DBOp
deriving DecidableEq

/-- One iteration of `for _, item := range items` in `main`: resolve the
date (skip the item on failure), detect the format on the first success,
and issue the `CreatePost` insert-or-ignore. -/
def processItem (G : GoTime) (feed : Feed) (st : ItemLoopState)
    (item : NormalizedItem) : ItemLoopState :=
  match parseDateWithFormat G item.published feed.dateFormat with
  | none => { st with skipped := st.skipped ++ [item] }
  | some (parsedTime, usedFormat) =>
    let st1 : ItemLoopState :=
      if st.detectedFormat = "" ∧ usedFormat ≠ "" then
        { st with
          detectedFormat := usedFormat
          needsFormatUpdate :=
            if feed.dateFormat.valid = false ∨ feed.dateFormat.string ≠ usedFormat then
              true
            else st.needsFormatUpdate }
      else st
    let p : Post :=
      { title := item.title, url := item.url,
        publishedAt := G.formatRFC3339 parsedTime, feedId := feed.id }
    { st1 with posts := createPost st1.posts p, ops := st1.ops ++ [DBOp.createPost p] }

/-- The whole item loop, from an arbitrary loop state. -/
def processItems (G : GoTime) (feed : Feed) (st : ItemLoopState)
    (items : List NormalizedItem) : ItemLoopState :=
  items.foldl (processItem G feed) st

/-- The loop state at entry of the item loop: `detectedFormat` empty,
`needsFormatUpdate` false, nothing skipped, no store call issued. -/
def initState (posts : List Post) : ItemLoopState :=
  { posts := posts, detectedFormat := "", needsFormatUpdate := false,
    skipped := [], ops := [] }

/-- The feed-level last-updated block of `main`: when the raw string is
non-empty, re-encode it canonically if it resolves and keep it raw
otherwise; an empty raw string passes through unchanged. -/
def resolveLastUpdated (G : GoTime) (feed : Feed) (lastUpdatedAt : String) : String :=
  if lastUpdatedAt ≠ "" then
    match parseDateWithFormat G lastUpdatedAt feed.dateFormat with
    | some (parsedTime, _) => G.formatRFC3339 parsedTime
    | none => lastUpdatedAt
  else lastUpdatedAt

/-- The per-feed tail of `main` after fetch/decode/normalize succeeded:
item loop, then at most one `UpdateFeedFormat`, then the unconditional
`UpdateFeedDate`.  Returns the store after the feed plus the ordered trace
of store calls. -/
def ingest (G : GoTime) (db : DB) (feed : Feed) (lastUpdatedAt : String)
    (items : List NormalizedItem) : DB × List DBOp :=
  let st := processItems G feed (initState db.posts) items
  let db1 : DB := { db with posts := st.posts }
  let db2 : DB :=
    if st.needsFormatUpdate = true ∧ st.detectedFormat ≠ "" then
      updateFeedFormat db1 feed.id ⟨st.detectedFormat, true⟩
    else db1
  let ops2 : List DBOp :=
    if st.needsFormatUpdate = true ∧ st.detectedFormat ≠ "" then
      [DBOp.updateFeedFormat feed.id ⟨st.detectedFormat, true⟩]
    else []
  let lu := resolveLastUpdated G feed lastUpdatedAt
  (updateFeedDate db2 feed.id ⟨lu, true⟩,
   st.ops ++ ops2 ++ [DBOp.updateFeedDate feed.id ⟨lu, true⟩])

/-- The signal with which `log.Fatal` aborts the run when a feed declares
the unimplemented `custom` type. -/
inductive Halt where
  | customUnimplemented
deriving DecidableEq

/-- One iteration of `for _, feed := range feeds` in `main`: dispatch on the
declared feed type, skip the feed on fetch/decode failure, otherwise ingest.
`Except.error` models `log.Fatal` (the whole process exits). -/
def processFeed (G : GoTime) (E : FetchEnv) (db : DB) (feed : Feed) :
    Except Halt DB :=
  match feed.feedType with
  | "rss" =>
    match getRSSFeed E feed.url with
    | Except.error _ => Except.ok db
    | Except.ok (lastUpdatedAt, items) =>
      Except.ok (ingest G db feed lastUpdatedAt items).1
  | "atom" =>
    match getAtomFeed E feed.url with
    | Except.error _ => Except.ok db
    | Except.ok (lastUpdatedAt, items) =>
      Except.ok (ingest G db feed lastUpdatedAt items).1
  | "custom" => Except.error Halt.customUnimplemented
  | _ => Except.ok db

/-- The feed loop of `main` over a given list of feed rows. -/
def runFeeds (G : GoTime) (E : FetchEnv) : List Feed → DB → Except Halt DB
  | [], db => Except.ok db
  | feed :: rest, db =>
    match processFeed G E db feed with
    | Except.error h => Except.error h
    | Except.ok db1 => runFeeds G E rest db1

/-- `main`: list the feed rows, then run the feed loop. -/
def runMain (G : GoTime) (E : FetchEnv) (db : DB) : Except Halt DB :=
  runFeeds G E db.feeds db

/-! ## Basic facts about the date-resolution scan -/

theorem tryFormats_eq_none_iff (G : GoTime) (s : String) (fs : List String) :
    tryFormats G s fs = none ↔ ∀ f ∈ fs, G.parse f s = none := by
  induction fs with
  | nil => simp [tryFormats]
  | cons f rest ih =>
    simp only [tryFormats]
    cases h : G.parse f s with
    | some t => simp [h]
    | none => simp [h, ih]

theorem tryFormats_eq_some (G : GoTime) (s : String) (fs : List String) (t : Nat)
    (f : String) (h : tryFormats G s fs = some (t, f)) :
    f ∈ fs ∧ G.parse f s = some t := by
  induction fs with
  | nil => simp [tryFormats] at h
  | cons g rest ih =>
    simp only [tryFormats] at h
    cases hg : G.parse g s with
    | some t0 =>
      rw [hg] at h
      obtain ⟨rfl, rfl⟩ : t0 = t ∧ g = f := by
        constructor <;> · injection h with h1; cases h1; rfl
      exact ⟨List.mem_cons_self _ _, hg⟩
    | none =>
      rw [hg] at h
      obtain ⟨hmem, hp⟩ := ih h
      exact ⟨List.mem_cons_of_mem _ hmem, hp⟩

theorem tryFormats_first (G : GoTime) (s : String) :
    ∀ (fs : List String) (i : Nat), i < fs.length →
    (∀ j, j < i → G.parse (fs.getD j "") s = none) →
    ∀ t, G.parse (fs.getD i "") s = some t →
    tryFormats G s fs = some (t, fs.getD i "") := by
  intro fs
  induction fs with
  | nil => intro i hi; simp at hi
  | cons g rest ih =>
    intro i hi hj t ht
    cases i with
    | zero =>
      simp only [List.getD_cons_zero] at ht ⊢
      simp only [tryFormats, ht]
    | succ i0 =>
      have h0 : G.parse g s = none := by
        have := hj 0 (Nat.succ_pos _)
        simpa using this
      simp only [List.getD_cons_succ] at ht ⊢
      simp only [tryFormats, h0]
      exact ih i0 (by simpa using hi) (fun j hjlt => by simpa using hj (j + 1) (by omega)) t ht

/-- Every layout in the candidate list is a non-empty string. -/
theorem formats_ne_empty : ∀ f ∈ formats, f ≠ "" := by decide

/-! ## Claim theorems: the Date Resolver -/

/-- C1: with no usable hint, `parseDate` tries the candidate layouts in
exactly the fixed order RFC-3339, RFC-1123Z, RFC-1123, RFC-822Z, RFC-822,
`"2006-01-02 15:04:05"`, `"2006-01-02"`; it returns the timestamp and
layout of the first candidate that parses, and fails if and only if no
candidate parses. -/
theorem parseDate_first_match_order (G : GoTime) (s : String) :
    formats = [RFC3339, RFC1123Z, RFC1123, RFC822Z, RFC822,
               "2006-01-02 15:04:05", "2006-01-02"]
    ∧ (parseDate G s = none ↔ ∀ f ∈ formats, G.parse f s = none)
    ∧ ∀ i, i < formats.length →
        (∀ j, j < i → G.parse (formats.getD j "") s = none) →
        ∀ t, G.parse (formats.getD i "") s = some t →
        parseDate G s = some (t, formats.getD i "") := by
  refine ⟨rfl, tryFormats_eq_none_iff G s formats, ?_⟩
  intro i hi hj t ht
  exact tryFormats_first G s formats i hi hj t ht

/-- A concrete date-parsing oracle used to instantiate claim theorems:
only the RFC-1123 layout parses the string `"demo"`. -/
def demoG : GoTime where
  parse := fun layout s => if layout = RFC1123 ∧ s = "demo" then some 42 else none
  formatRFC3339 := fun t => toString t

theorem parseDate_first_match_order_witness :
    parseDate demoG "demo" = some (42, RFC1123) := by
  have h := (parseDate_first_match_order demoG "demo").2.2 2 (by decide)
      (by decide) 42 (by decide)
  exact h

/-- C3: a valid, non-empty hint that parses the string short-circuits the
resolver — the result is that parse with the hint itself as used format;
when the hint is absent (`valid = false`), empty, or fails to parse, the
result is exactly the full candidate scan's. -/
theorem parseDateWithFormat_hint_policy (G : GoTime) (s : String) (hint : NullString) :
    (∀ t, hint.valid = true → hint.string ≠ "" → G.parse hint.string s = some t →
        parseDateWithFormat G s hint = some (t, hint.string))
    ∧ (hint.valid = false ∨ hint.string = "" ∨ G.parse hint.string s = none →
        parseDateWithFormat G s hint = parseDate G s) := by
  constructor
  · intro t hv hne hp
    unfold parseDateWithFormat
    rw [if_pos ⟨hv, hne⟩, hp]
  · intro h
    by_cases hc : hint.valid = true ∧ hint.string ≠ ""
    · rcases h with h | h | h
      · rw [hc.1] at h; cases h
      · exact absurd h hc.2
      · unfold parseDateWithFormat
        rw [if_pos hc, h]
    · unfold parseDateWithFormat
      rw [if_neg hc]

theorem parseDateWithFormat_hint_policy_witness :
    parseDateWithFormat demoG "demo" ⟨RFC1123, true⟩ = some (42, RFC1123)
    ∧ parseDateWithFormat demoG "demo" ⟨"", true⟩ = parseDate demoG "demo" :=
  ⟨(parseDateWithFormat_hint_policy demoG "demo" ⟨RFC1123, true⟩).1 42 rfl
      (by decide) (by decide),
   (parseDateWithFormat_hint_policy demoG "demo" ⟨"", true⟩).2 (Or.inr (Or.inl rfl))⟩

/-! ## Structural lemmas: resolver outcomes -/

theorem parseDateWithFormat_eq_none_iff (G : GoTime) (s : String) (hint : NullString) :
    parseDateWithFormat G s hint = none ↔
      parseDate G s = none ∧
      (hint.valid = true → hint.string ≠ "" → G.parse hint.string s = none) := by
  by_cases hc : hint.valid = true ∧ hint.string ≠ ""
  · unfold parseDateWithFormat
    rw [if_pos hc]
    cases hp : G.parse hint.string s with
    | some t =>
      constructor
      · intro h; cases h
      · intro ⟨_, h2⟩; cases h2 hc.1 hc.2
    | none =>
      constructor
      · intro h; exact ⟨h, fun _ _ => rfl⟩
      · intro ⟨h1, _⟩; exact h1
  · unfold parseDateWithFormat
    rw [if_neg hc]
    constructor
    · intro h
      refine ⟨h, fun hv hne => absurd ⟨hv, hne⟩ hc⟩
    · intro ⟨h1, _⟩; exact h1

theorem parseDateWithFormat_some_format (G : GoTime) (s : String) (hint : NullString)
    (t : Nat) (f : String) (h : parseDateWithFormat G s hint = some (t, f)) :
    (hint.valid = true ∧ hint.string ≠ "" ∧ f = hint.string ∧ G.parse f s = some t)
    ∨ (f ∈ formats ∧ G.parse f s = some t) := by
  by_cases hc : hint.valid = true ∧ hint.string ≠ ""
  · unfold parseDateWithFormat at h
    rw [if_pos hc] at h
    cases hp : G.parse hint.string s with
    | some t0 =>
      rw [hp] at h
      obtain ⟨rfl, rfl⟩ : t0 = t ∧ hint.string = f := by
        constructor <;> · injection h with h1; cases h1; rfl
      exact Or.inl ⟨hc.1, hc.2, rfl, hp⟩
    | none =>
      rw [hp] at h
      exact Or.inr (tryFormats_eq_some G s formats t f h)
  · unfold parseDateWithFormat at h
    rw [if_neg hc] at h
    exact Or.inr (tryFormats_eq_some G s formats t f h)

/-- The used format reported on a successful resolution is never empty. -/
theorem parseDateWithFormat_some_ne_empty (G : GoTime) (s : String) (hint : NullString)
    (t : Nat) (f : String) (h : parseDateWithFormat G s hint = some (t, f)) :
    f ≠ "" := by
  rcases parseDateWithFormat_some_format G s hint t f h with ⟨_, hne, rfl, _⟩ | ⟨hmem, _⟩
  · exact hne
  · exact formats_ne_empty f hmem

/-! ## Structural lemmas: the post table -/

theorem hasKey_createPost (posts : List Post) (p : Post) (u : String) (fid : Nat)
    (h : hasKey posts u fid) : hasKey (createPost posts p) u fid := by
  unfold createPost
  split
  · exact h
  · obtain ⟨q, hq, h2⟩ := h
    exact ⟨q, List.mem_append_left _ hq, h2⟩

theorem hasKey_createPost_self (posts : List Post) (p : Post) :
    hasKey (createPost posts p) p.url p.feedId := by
  unfold createPost
  split
  · assumption
  · exact ⟨p, List.mem_append_right _ (List.mem_singleton.mpr rfl), rfl, rfl⟩

theorem createPost_of_hasKey (posts : List Post) (p : Post)
    (h : hasKey posts p.url p.feedId) : createPost posts p = posts :=
  if_pos h

theorem createPost_length_of_not_hasKey (posts : List Post) (p : Post)
    (h : ¬ hasKey posts p.url p.feedId) :
    (createPost posts p).length = posts.length + 1 := by
  unfold createPost
  rw [if_neg h]
  simp

/-- The uniqueness invariant of the `post` table: no two rows share the
`(url, feed_id)` pair. -/
def keysUnique (posts : List Post) : Prop :=
  List.Pairwise (fun p q => ¬ (p.url = q.url ∧ p.feedId = q.feedId)) posts

theorem keysUnique_createPost (posts : List Post) (p : Post)
    (h : keysUnique posts) : keysUnique (createPost posts p) := by
  unfold createPost
  split
  · exact h
  · next hk =>
    unfold keysUnique at h ⊢
    rw [List.pairwise_append]
    refine ⟨h, List.pairwise_singleton _ _, ?_⟩
    intro a ha b hb hcontra
    rw [List.mem_singleton] at hb
    subst hb
    exact hk ⟨a, ha, hcontra⟩

/-! ## Structural lemmas: one step of the item loop -/

/-- The post row the coordinator builds for a successfully dated item. -/
def mkPost (G : GoTime) (feed : Feed) (item : NormalizedItem) (t : Nat) : Post :=
  { title := item.title, url := item.url,
    publishedAt := G.formatRFC3339 t, feedId := feed.id }

theorem processItem_none (G : GoTime) (feed : Feed) (st : ItemLoopState)
    (item : NormalizedItem)
    (h : parseDateWithFormat G item.published feed.dateFormat = none) :
    processItem G feed st item = { st with skipped := st.skipped ++ [item] } := by
  unfold processItem
  rw [h]

theorem processItem_some_eq (G : GoTime) (feed : Feed) (st : ItemLoopState)
    (item : NormalizedItem) (t : Nat) (f : String)
    (h : parseDateWithFormat G item.published feed.dateFormat = some (t, f)) :
    processItem G feed st item =
      { posts := createPost st.posts (mkPost G feed item t),
        detectedFormat := if st.detectedFormat = "" ∧ f ≠ "" then f else st.detectedFormat,
        needsFormatUpdate :=
          if st.detectedFormat = "" ∧ f ≠ "" then
            (if feed.dateFormat.valid = false ∨ feed.dateFormat.string ≠ f then true
             else st.needsFormatUpdate)
          else st.needsFormatUpdate,
        skipped := st.skipped,
        ops := st.ops ++ [DBOp.createPost (mkPost G feed item t)] } := by
  unfold processItem mkPost
  rw [h]
  by_cases hc : st.detectedFormat = "" ∧ f ≠ ""
  · simp only [if_pos hc]
  · simp only [if_neg hc]

/-! ## Structural lemmas: the whole item loop -/

theorem processItems_nil (G : GoTime) (feed : Feed) (st : ItemLoopState) :
    processItems G feed st [] = st := rfl

theorem processItems_cons (G : GoTime) (feed : Feed) (st : ItemLoopState)
    (item : NormalizedItem) (items : List NormalizedItem) :
    processItems G feed st (item :: items) =
    processItems G feed (processItem G feed st item) items := rfl

theorem processItems_append (G : GoTime) (feed : Feed) (st : ItemLoopState)
    (xs ys : List NormalizedItem) :
    processItems G feed st (xs ++ ys) =
    processItems G feed (processItems G feed st xs) ys := by
  unfold processItems
  exact List.foldl_append _ _ _ _

theorem hasKey_processItems (G : GoTime) (feed : Feed) (items : List NormalizedItem) :
    ∀ (st : ItemLoopState) (u : String) (fid : Nat), hasKey st.posts u fid →
    hasKey (processItems G feed st items).posts u fid := by
  induction items with
  | nil => intro st u fid h; exact h
  | cons item rest ih =>
    intro st u fid h
    rw [processItems_cons]
    apply ih
    cases hp : parseDateWithFormat G item.published feed.dateFormat with
    | none => rw [processItem_none G feed st item hp]; exact h
    | some r =>
      obtain ⟨t, f⟩ := r
      rw [processItem_some_eq G feed st item t f hp]
      exact hasKey_createPost _ _ _ _ h

theorem processItems_key_present (G : GoTime) (feed : Feed) (items : List NormalizedItem) :
    ∀ (st : ItemLoopState) (item : NormalizedItem), item ∈ items →
    ∀ t f, parseDateWithFormat G item.published feed.dateFormat = some (t, f) →
    hasKey (processItems G feed st items).posts item.url feed.id := by
  induction items with
  | nil => intro st item h; cases h
  | cons x rest ih =>
    intro st item hmem t f hp
    rw [processItems_cons]
    rcases List.mem_cons.mp hmem with rfl | hmem2
    · apply hasKey_processItems
      rw [processItem_some_eq G feed st item t f hp]
      exact hasKey_createPost_self st.posts (mkPost G feed item t)
    · exact ih _ item hmem2 t f hp

theorem processItems_posts_of_all_present (G : GoTime) (feed : Feed)
    (items : List NormalizedItem) :
    ∀ st : ItemLoopState,
    (∀ item ∈ items, ∀ t f,
        parseDateWithFormat G item.published feed.dateFormat = some (t, f) →
        hasKey st.posts item.url feed.id) →
    (processItems G feed st items).posts = st.posts := by
  induction items with
  | nil => intro st _; rfl
  | cons x rest ih =>
    intro st hall
    rw [processItems_cons]
    cases hp : parseDateWithFormat G x.published feed.dateFormat with
    | none =>
      rw [processItem_none G feed st x hp]
      exact ih _ (fun item hm t f h => hall item (List.mem_cons_of_mem _ hm) t f h)
    | some r =>
      obtain ⟨t, f⟩ := r
      rw [processItem_some_eq G feed st x t f hp]
      have hcp : createPost st.posts (mkPost G feed x t) = st.posts :=
        createPost_of_hasKey _ _ (hall x (List.mem_cons_self _ _) t f hp)
      refine (ih _ ?_).trans hcp
      intro item hm t0 f0 h0
      exact hasKey_createPost _ _ _ _ (hall item (List.mem_cons_of_mem _ hm) t0 f0 h0)

theorem keysUnique_processItems (G : GoTime) (feed : Feed) (items : List NormalizedItem) :
    ∀ st : ItemLoopState, keysUnique st.posts →
    keysUnique (processItems G feed st items).posts := by
  induction items with
  | nil => intro st h; exact h
  | cons x rest ih =>
    intro st h
    rw [processItems_cons]
    cases hp : parseDateWithFormat G x.published feed.dateFormat with
    | none => rw [processItem_none G feed st x hp]; exact ih _ h
    | some r =>
      obtain ⟨t, f⟩ := r
      rw [processItem_some_eq G feed st x t f hp]
      exact ih _ (keysUnique_createPost _ _ h)

theorem processItems_all_fail (G : GoTime) (feed : Feed) (items : List NormalizedItem) :
    ∀ st : ItemLoopState,
    (∀ item ∈ items, parseDateWithFormat G item.published feed.dateFormat = none) →
    processItems G feed st items = { st with skipped := st.skipped ++ items } := by
  induction items with
  | nil => intro st _; simp; rfl
  | cons x rest ih =>
    intro st hall
    rw [processItems_cons, processItem_none G feed st x (hall x (List.mem_cons_self _ _)),
        ih _ (fun i hi => hall i (List.mem_cons_of_mem _ hi))]
    simp

theorem hasKey_createPost_elim (posts : List Post) (p : Post) (u : String) (fid : Nat)
    (h : hasKey (createPost posts p) u fid) :
    hasKey posts u fid ∨ (u = p.url ∧ fid = p.feedId) := by
  unfold createPost at h
  split at h
  · exact Or.inl h
  · obtain ⟨q, hq, h2⟩ := h
    rcases List.mem_append.mp hq with hq | hq
    · exact Or.inl ⟨q, hq, h2⟩
    · rw [List.mem_singleton] at hq
      subst hq
      exact Or.inr ⟨h2.1.symm, h2.2.symm⟩

theorem processItems_all_succeed (G : GoTime) (feed : Feed)
    (items : List NormalizedItem) :
    ∀ st : ItemLoopState,
    (∀ item ∈ items, (parseDateWithFormat G item.published feed.dateFormat).isSome = true) →
    (∀ item ∈ items, ¬ hasKey st.posts item.url feed.id) →
    (items.map fun item => item.url).Nodup →
    (processItems G feed st items).posts.length = st.posts.length + items.length
    ∧ (processItems G feed st items).skipped = st.skipped := by
  induction items with
  | nil => intro st _ _ _; exact ⟨rfl, rfl⟩
  | cons x rest ih =>
    intro st hsucc hfresh hnd
    obtain ⟨⟨t, f⟩, hp⟩ :=
      Option.isSome_iff_exists.mp (hsucc x (List.mem_cons_self _ _))
    rw [processItems_cons]
    have hst1posts : (processItem G feed st x).posts =
        createPost st.posts (mkPost G feed x t) := by
      rw [processItem_some_eq G feed st x t f hp]
    have hst1skip : (processItem G feed st x).skipped = st.skipped := by
      rw [processItem_some_eq G feed st x t f hp]
    have hnotkey : ¬ hasKey st.posts x.url feed.id := hfresh x (List.mem_cons_self _ _)
    have hlen : (createPost st.posts (mkPost G feed x t)).length = st.posts.length + 1 :=
      createPost_length_of_not_hasKey _ _ hnotkey
    have hxurl : x.url ∉ rest.map fun item => item.url := by
      have h0 := hnd
      simp only [List.map_cons, List.nodup_cons] at h0
      exact h0.1
    have hfresh2 : ∀ item ∈ rest,
        ¬ hasKey (processItem G feed st x).posts item.url feed.id := by
      intro item hm hk
      rw [hst1posts] at hk
      rcases hasKey_createPost_elim _ _ _ _ hk with hk2 | ⟨hk2, _⟩
      · exact hfresh item (List.mem_cons_of_mem _ hm) hk2
      · have hk3 : item.url = x.url := hk2
        exact hxurl (by rw [← hk3]; exact List.mem_map_of_mem _ hm)
    have hnd2 : (rest.map fun item => item.url).Nodup := by
      simp only [List.map_cons, List.nodup_cons] at hnd
      exact hnd.2
    obtain ⟨h1, h2⟩ :=
      ih (processItem G feed st x) (fun i hi => hsucc i (List.mem_cons_of_mem _ hi))
        hfresh2 hnd2
    constructor
    · rw [h1, hst1posts, hlen]
      simp only [List.length_cons]
      omega
    · rw [h2, hst1skip]

/-- Once a format has been detected, later items change neither the
detected format nor the pending-update flag. -/
theorem processItems_frozen (G : GoTime) (feed : Feed) (items : List NormalizedItem) :
    ∀ st : ItemLoopState, st.detectedFormat ≠ "" →
    (processItems G feed st items).detectedFormat = st.detectedFormat
    ∧ (processItems G feed st items).needsFormatUpdate = st.needsFormatUpdate := by
  induction items with
  | nil => intro st _; exact ⟨rfl, rfl⟩
  | cons x rest ih =>
    intro st hne
    rw [processItems_cons]
    cases hp : parseDateWithFormat G x.published feed.dateFormat with
    | none => rw [processItem_none G feed st x hp]; exact ih _ hne
    | some r =>
      obtain ⟨t, f⟩ := r
      rw [processItem_some_eq G feed st x t f hp]
      have hcond : ¬ (st.detectedFormat = "" ∧ f ≠ "") := fun hc => hne hc.1
      simp only [if_neg hcond]
      exact ih _ hne

/-- The relation `main` maintains between `needsFormatUpdate`,
`detectedFormat` and the stored hint. -/
def needsInv (feed : Feed) (st : ItemLoopState) : Prop :=
  st.needsFormatUpdate = true ↔
    st.detectedFormat ≠ "" ∧
    (feed.dateFormat.valid = false ∨ feed.dateFormat.string ≠ st.detectedFormat)

theorem needsInv_processItems (G : GoTime) (feed : Feed) (items : List NormalizedItem) :
    ∀ st : ItemLoopState, needsInv feed st →
    needsInv feed (processItems G feed st items) := by
  induction items with
  | nil => intro st h; exact h
  | cons x rest ih =>
    intro st h
    rw [processItems_cons]
    cases hp : parseDateWithFormat G x.published feed.dateFormat with
    | none =>
      rw [processItem_none G feed st x hp]
      exact ih _ h
    | some r =>
      obtain ⟨t, f⟩ := r
      rw [processItem_some_eq G feed st x t f hp]
      apply ih
      by_cases hc : st.detectedFormat = "" ∧ f ≠ ""
      · have hno : st.needsFormatUpdate = false := by
          rcases Bool.eq_false_or_eq_true st.needsFormatUpdate with hb | hb
          · exact absurd (h.mp hb).1 (by rw [hc.1]; simp)
          · exact hb
        unfold needsInv
        simp only [if_pos hc]
        by_cases hd : feed.dateFormat.valid = false ∨ feed.dateFormat.string ≠ f
        · simp only [if_pos hd]
          exact ⟨fun _ => ⟨hc.2, hd⟩, fun _ => by trivial⟩
        · simp only [if_neg hd, hno]
          constructor
          · intro hfalse; cases hfalse
          · intro ⟨_, hd2⟩; exact absurd hd2 hd
      · simp only [if_neg hc]
        exact h

/-- Every value `detectedFormat` can take: empty, the stored hint (when it
was usable), or one of the scan candidates. -/
def detectedInv (feed : Feed) (st : ItemLoopState) : Prop :=
  st.detectedFormat = "" ∨
  (feed.dateFormat.valid = true ∧ feed.dateFormat.string ≠ "" ∧
    st.detectedFormat = feed.dateFormat.string) ∨
  st.detectedFormat ∈ formats

theorem detectedInv_processItems (G : GoTime) (feed : Feed) (items : List NormalizedItem) :
    ∀ st : ItemLoopState, detectedInv feed st →
    detectedInv feed (processItems G feed st items) := by
  induction items with
  | nil => intro st h; exact h
  | cons x rest ih =>
    intro st h
    rw [processItems_cons]
    cases hp : parseDateWithFormat G x.published feed.dateFormat with
    | none => rw [processItem_none G feed st x hp]; exact ih _ h
    | some r =>
      obtain ⟨t, f⟩ := r
      rw [processItem_some_eq G feed st x t f hp]
      apply ih
      by_cases hc : st.detectedFormat = "" ∧ f ≠ ""
      · unfold detectedInv
        simp only [if_pos hc]
        rcases parseDateWithFormat_some_format G x.published feed.dateFormat t f hp with
          ⟨hv, hne, hf, _⟩ | ⟨hmem, _⟩
        · exact Or.inr (Or.inl ⟨hv, hne, hf⟩)
        · exact Or.inr (Or.inr hmem)
      · unfold detectedInv
        simp only [if_neg hc]
        exact h

/-- Recognizer for item-level store calls. -/
def isCreatePostOp : DBOp → Bool
  | DBOp.createPost _ => true
  | _ => false

theorem processItems_ops (G : GoTime) (feed : Feed) (items : List NormalizedItem) :
    ∀ st : ItemLoopState, ∃ newOps : List DBOp,
      (processItems G feed st items).ops = st.ops ++ newOps
      ∧ ∀ op ∈ newOps, isCreatePostOp op = true := by
  induction items with
  | nil => intro st; exact ⟨[], by rw [processItems_nil]; simp, by simp⟩
  | cons x rest ih =>
    intro st
    rw [processItems_cons]
    cases hp : parseDateWithFormat G x.published feed.dateFormat with
    | none =>
      rw [processItem_none G feed st x hp]
      obtain ⟨newOps, h1, h2⟩ := ih { st with skipped := st.skipped ++ [x] }
      exact ⟨newOps, h1, h2⟩
    | some r =>
      obtain ⟨t, f⟩ := r
      obtain ⟨newOps, h1, h2⟩ := ih (processItem G feed st x)
      have hops : (processItem G feed st x).ops =
          st.ops ++ [DBOp.createPost (mkPost G feed x t)] := by
        rw [processItem_some_eq G feed st x t f hp]
      refine ⟨[DBOp.createPost (mkPost G feed x t)] ++ newOps, ?_, ?_⟩
      · rw [h1, hops, List.append_assoc]
      · intro op hop
        rcases List.mem_append.mp hop with hop | hop
        · rw [List.mem_singleton] at hop; subst hop; rfl
        · exact h2 op hop

/-- A successful first item of the remaining batch fixes `detectedFormat`
and the pending-update flag for the rest of the run. -/
theorem processItems_detect_of_head_success (G : GoTime) (feed : Feed)
    (item : NormalizedItem) (post : List NormalizedItem) (t : Nat) (f : String) :
    ∀ st : ItemLoopState, st.detectedFormat = "" →
    parseDateWithFormat G item.published feed.dateFormat = some (t, f) →
    (processItems G feed st (item :: post)).detectedFormat = f
    ∧ (processItems G feed st (item :: post)).needsFormatUpdate =
       (if feed.dateFormat.valid = false ∨ feed.dateFormat.string ≠ f then true
        else st.needsFormatUpdate) := by
  intro st hdet hitem
  rw [processItems_cons]
  have hf := parseDateWithFormat_some_ne_empty _ _ _ _ _ hitem
  have hD : (processItem G feed st item).detectedFormat = f := by
    rw [processItem_some_eq G feed st item t f hitem]
    simp only [if_pos (⟨hdet, hf⟩ : st.detectedFormat = "" ∧ f ≠ "")]
  have hN : (processItem G feed st item).needsFormatUpdate =
      (if feed.dateFormat.valid = false ∨ feed.dateFormat.string ≠ f then true
       else st.needsFormatUpdate) := by
    rw [processItem_some_eq G feed st item t f hitem]
    simp only [if_pos (⟨hdet, hf⟩ : st.detectedFormat = "" ∧ f ≠ "")]
  obtain ⟨h1, h2⟩ :=
    processItems_frozen G feed post (processItem G feed st item) (by rw [hD]; exact hf)
  exact ⟨h1.trans hD, h2.trans hN⟩

/-- The format of the first item in the batch that resolves successfully is
the detected format of the run, and the pending-update flag records whether
it differs from the stored hint. -/
theorem processItems_first_success (G : GoTime) (feed : Feed)
    (pre post : List NormalizedItem) (item : NormalizedItem) (t : Nat) (f : String) :
    ∀ st : ItemLoopState, st.detectedFormat = "" →
    (∀ p ∈ pre, parseDateWithFormat G p.published feed.dateFormat = none) →
    parseDateWithFormat G item.published feed.dateFormat = some (t, f) →
    (processItems G feed st (pre ++ item :: post)).detectedFormat = f
    ∧ (processItems G feed st (pre ++ item :: post)).needsFormatUpdate =
       (if feed.dateFormat.valid = false ∨ feed.dateFormat.string ≠ f then true
        else st.needsFormatUpdate) := by
  intro st hdet hpre hitem
  rw [processItems_append, processItems_all_fail G feed pre st hpre]
  exact processItems_detect_of_head_success G feed item post t f
    { st with skipped := st.skipped ++ pre } hdet hitem

/-! ## Structural lemmas: the per-feed tail and the feed loop -/

/-- Which keys the item loop can add: only `(item.url, feed.id)` pairs of
its own items. -/
theorem hasKey_processItems_elim (G : GoTime) (feed : Feed) (items : List NormalizedItem) :
    ∀ (st : ItemLoopState) (u : String) (fid : Nat),
    hasKey (processItems G feed st items).posts u fid →
    hasKey st.posts u fid ∨ ∃ item ∈ items, u = item.url ∧ fid = feed.id := by
  induction items with
  | nil => intro st u fid h; exact Or.inl h
  | cons x rest ih =>
    intro st u fid h
    rw [processItems_cons] at h
    rcases ih _ _ _ h with h2 | ⟨item, hm, he⟩
    · cases hp : parseDateWithFormat G x.published feed.dateFormat with
      | none =>
        rw [processItem_none G feed st x hp] at h2
        exact Or.inl h2
      | some r =>
        obtain ⟨t, f⟩ := r
        rw [processItem_some_eq G feed st x t f hp] at h2
        rcases hasKey_createPost_elim _ _ _ _ h2 with h3 | ⟨h3, h4⟩
        · exact Or.inl h3
        · exact Or.inr ⟨x, List.mem_cons_self _ _, h3, h4⟩
    · exact Or.inr ⟨item, List.mem_cons_of_mem _ hm, he⟩

/-- Unfolded form of `ingest`, stated once so that later proofs can rewrite
with it. -/
theorem ingest_eq (G : GoTime) (db : DB) (feed : Feed) (lu : String)
    (items : List NormalizedItem) :
    ingest G db feed lu items =
      (updateFeedDate
        (if (processItems G feed (initState db.posts) items).needsFormatUpdate = true
            ∧ (processItems G feed (initState db.posts) items).detectedFormat ≠ "" then
            updateFeedFormat
              { db with posts := (processItems G feed (initState db.posts) items).posts }
              feed.id
              ⟨(processItems G feed (initState db.posts) items).detectedFormat, true⟩
          else { db with posts := (processItems G feed (initState db.posts) items).posts })
        feed.id ⟨resolveLastUpdated G feed lu, true⟩,
       (processItems G feed (initState db.posts) items).ops
        ++ (if (processItems G feed (initState db.posts) items).needsFormatUpdate = true
              ∧ (processItems G feed (initState db.posts) items).detectedFormat ≠ "" then
              [DBOp.updateFeedFormat feed.id
                ⟨(processItems G feed (initState db.posts) items).detectedFormat, true⟩]
            else [])
        ++ [DBOp.updateFeedDate feed.id ⟨resolveLastUpdated G feed lu, true⟩]) := rfl

/-- The per-feed tail never changes the `post` table beyond the item loop. -/
theorem ingest_posts (G : GoTime) (db : DB) (feed : Feed) (lu : String)
    (items : List NormalizedItem) :
    (ingest G db feed lu items).1.posts =
    (processItems G feed (initState db.posts) items).posts := by
  rw [ingest_eq]
  split <;> rfl

/-- The trace of store calls of the per-feed tail: the item-loop inserts,
then at most one format update, then the unconditional date update. -/
theorem ingest_trace_shape (G : GoTime) (db : DB) (feed : Feed) (lu : String)
    (items : List NormalizedItem) :
    ∃ itemOps : List DBOp, (∀ op ∈ itemOps, isCreatePostOp op = true) ∧
    (ingest G db feed lu items).2 =
      itemOps
      ++ (if (processItems G feed (initState db.posts) items).needsFormatUpdate = true
            ∧ (processItems G feed (initState db.posts) items).detectedFormat ≠ "" then
            [DBOp.updateFeedFormat feed.id
              ⟨(processItems G feed (initState db.posts) items).detectedFormat, true⟩]
          else [])
      ++ [DBOp.updateFeedDate feed.id ⟨resolveLastUpdated G feed lu, true⟩] := by
  obtain ⟨newOps, h1, h2⟩ := processItems_ops G feed items (initState db.posts)
  have h1' : (processItems G feed (initState db.posts) items).ops = newOps := by
    rw [h1]; rfl
  refine ⟨newOps, h2, ?_⟩
  rw [ingest_eq]
  rw [h1']

/-- Recognizer for format-hint store calls. -/
def isFormatOp : DBOp → Bool
  | DBOp.updateFeedFormat _ _ => true
  | _ => false

theorem filter_isFormatOp_of_createPost (l : List DBOp)
    (h : ∀ op ∈ l, isCreatePostOp op = true) : l.filter isFormatOp = [] := by
  rw [List.filter_eq_nil_iff]
  intro op hop
  have := h op hop
  cases op with
  | createPost p => simp [isFormatOp]
  | updateFeedFormat id fmt => cases this
  | updateFeedDate id d => simp [isFormatOp]

/-- The format updates in the per-feed trace, isolated. -/
theorem ingest_format_ops (G : GoTime) (db : DB) (feed : Feed) (lu : String)
    (items : List NormalizedItem) :
    (ingest G db feed lu items).2.filter isFormatOp =
      (if (processItems G feed (initState db.posts) items).needsFormatUpdate = true
          ∧ (processItems G feed (initState db.posts) items).detectedFormat ≠ "" then
          [DBOp.updateFeedFormat feed.id
            ⟨(processItems G feed (initState db.posts) items).detectedFormat, true⟩]
        else []) := by
  obtain ⟨itemOps, h1, h2⟩ := ingest_trace_shape G db feed lu items
  rw [h2, List.filter_append, List.filter_append,
      filter_isFormatOp_of_createPost itemOps h1]
  split
  · simp [isFormatOp]
  · simp [isFormatOp]

theorem updateFeedDate_dateFormats (db : DB) (id : Nat) (x : NullString) :
    (updateFeedDate db id x).feeds.map (fun fr => fr.dateFormat) =
    db.feeds.map (fun fr => fr.dateFormat) := by
  unfold updateFeedDate
  rw [List.map_map]
  apply List.map_congr_left
  intro a _
  by_cases h : a.id = id
  · simp [h]
  · simp [h]

theorem updateFeedDate_row (db : DB) (id : Nat) (x : NullString) :
    ∀ fr ∈ (updateFeedDate db id x).feeds, fr.id = id → fr.lastUpdatedAt = x := by
  intro fr hm hid
  unfold updateFeedDate at hm
  simp only [List.mem_map] at hm
  obtain ⟨a, _, he⟩ := hm
  by_cases h : a.id = id
  · rw [if_pos h] at he
    rw [← he]
  · rw [if_neg h] at he
    rw [← he] at hid
    exact absurd hid h

/-- When the pending-update condition is false the stored hints survive the
whole per-feed tail. -/
theorem ingest_dateFormats_of_no_update (G : GoTime) (db : DB) (feed : Feed)
    (lu : String) (items : List NormalizedItem)
    (h : ¬ ((processItems G feed (initState db.posts) items).needsFormatUpdate = true
      ∧ (processItems G feed (initState db.posts) items).detectedFormat ≠ "")) :
    (ingest G db feed lu items).1.feeds.map (fun fr => fr.dateFormat) =
    db.feeds.map (fun fr => fr.dateFormat) := by
  rw [ingest_eq]
  rw [if_neg h]
  exact updateFeedDate_dateFormats _ _ _

/-- A date string on which both the stored hint and the full scan failed
still fails after the hint is replaced by anything the run can detect. -/
theorem parse_fails_second_run (G : GoTime) (feed : Feed) (s : String) (f2 : String)
    (hfail : parseDateWithFormat G s feed.dateFormat = none)
    (hdet : (f2 = feed.dateFormat.string ∧ feed.dateFormat.valid = true ∧
              feed.dateFormat.string ≠ "")
            ∨ f2 ∈ formats ∨ f2 = "") :
    parseDateWithFormat G s ⟨f2, true⟩ = none := by
  rw [parseDateWithFormat_eq_none_iff] at hfail ⊢
  obtain ⟨hscan, hhint⟩ := hfail
  refine ⟨hscan, ?_⟩
  intro _ hne
  rcases hdet with ⟨heq, hv, hne2⟩ | hmem | heq
  · rw [heq]
    exact hhint hv hne2
  · exact (tryFormats_eq_none_iff G s formats).mp hscan f2 hmem
  · exact absurd heq hne

theorem processFeed_rss (G : GoTime) (E : FetchEnv) (db : DB) (feed : Feed)
    (h : feed.feedType = "rss") :
    processFeed G E db feed =
      match getRSSFeed E feed.url with
      | Except.error _ => Except.ok db
      | Except.ok (lu, items) => Except.ok (ingest G db feed lu items).1 := by
  unfold processFeed
  rw [h]
  rfl

theorem processFeed_custom (G : GoTime) (E : FetchEnv) (db : DB) (feed : Feed)
    (h : feed.feedType = "custom") :
    processFeed G E db feed = Except.error Halt.customUnimplemented := by
  unfold processFeed
  rw [h]
  rfl

theorem runFeeds_cons (G : GoTime) (E : FetchEnv) (feed : Feed) (rest : List Feed)
    (db : DB) :
    runFeeds G E (feed :: rest) db =
      match processFeed G E db feed with
      | Except.error h => Except.error h
      | Except.ok db1 => runFeeds G E rest db1 := rfl

theorem runFeeds_custom (G : GoTime) (E : FetchEnv) (feed : Feed) (rest : List Feed)
    (db : DB) (h : feed.feedType = "custom") :
    runFeeds G E (feed :: rest) db = Except.error Halt.customUnimplemented := by
  rw [runFeeds_cons, processFeed_custom G E db feed h]

theorem initState_posts (posts : List Post) : (initState posts).posts = posts := rfl

theorem initState_skipped (posts : List Post) : (initState posts).skipped = [] := rfl

theorem initState_needs (posts : List Post) :
    (initState posts).needsFormatUpdate = false := rfl

theorem processItem_none_posts (G : GoTime) (feed : Feed) (st : ItemLoopState)
    (item : NormalizedItem)
    (h : parseDateWithFormat G item.published feed.dateFormat = none) :
    (processItem G feed st item).posts = st.posts := by
  rw [processItem_none G feed st item h]

theorem processItem_none_skipped (G : GoTime) (feed : Feed) (st : ItemLoopState)
    (item : NormalizedItem)
    (h : parseDateWithFormat G item.published feed.dateFormat = none) :
    (processItem G feed st item).skipped = st.skipped ++ [item] := by
  rw [processItem_none G feed st item h]

theorem ite_needs (c : Prop) [Decidable c] (f : String) (hf : f ≠ "") (x : List DBOp) :
    (if (if c then true else false) = true ∧ f ≠ "" then x else []) =
    (if c then x else []) := by
  by_cases hc : c
  · simp [hc, hf]
  · simp [hc]

theorem mem_updateFeedFormat (db : DB) (id : Nat) (x : NullString) (fr : Feed)
    (h : fr ∈ (updateFeedFormat db id x).feeds) :
    ∃ fr0 ∈ db.feeds,
      fr = if fr0.id = id then { fr0 with dateFormat := x } else fr0 := by
  unfold updateFeedFormat at h
  simp only [List.mem_map] at h
  obtain ⟨a, ha, he⟩ := h
  exact ⟨a, ha, he.symm⟩

theorem mem_updateFeedDate (db : DB) (id : Nat) (x : NullString) (fr : Feed)
    (h : fr ∈ (updateFeedDate db id x).feeds) :
    ∃ fr0 ∈ db.feeds,
      fr = if fr0.id = id then { fr0 with lastUpdatedAt := x } else fr0 := by
  unfold updateFeedDate at h
  simp only [List.mem_map] at h
  obtain ⟨a, ha, he⟩ := h
  exact ⟨a, ha, he.symm⟩

/-! ## Concrete instances used by the witnesses -/

/-- A demo item whose date string only `RFC1123` parses under `demoG`. -/
def demoItem : NormalizedItem :=
  { title := "hello", url := "https://x/1", published := "demo" }

/-- A demo item whose date string nothing parses under `demoG`. -/
def badItem : NormalizedItem :=
  { title := "broken", url := "https://x/bad", published := "nope" }

/-- A second demo item that resolves under `demoG`. -/
def goodItem : NormalizedItem :=
  { title := "good", url := "https://x/good", published := "demo" }

/-- A feed row with no stored hint. -/
def demoFeed : Feed :=
  { id := 7, name := "demo-feed", lastUpdatedAt := ⟨"", false⟩,
    url := "https://x/feed", feedType := "rss", dateFormat := ⟨"", false⟩ }

def demoDB : DB := { feeds := [demoFeed], posts := [] }

def demoEnv : FetchEnv :=
  { fetchRSS := fun _ => Except.error "down",
    fetchAtom := fun _ => Except.error "down" }

def weirdFeed : Feed :=
  { id := 8, name := "weird-feed", lastUpdatedAt := ⟨"", false⟩,
    url := "https://x/w", feedType := "weird", dateFormat := ⟨"", false⟩ }

def customFeed : Feed :=
  { id := 9, name := "custom-feed", lastUpdatedAt := ⟨"", false⟩,
    url := "https://x/c", feedType := "custom", dateFormat := ⟨"", false⟩ }

/-! ## Claim theorems: persistence and the coordinator -/

/-- C2: re-ingesting the same feed payload leaves the Post set unchanged —
even when the first run has updated the feed's format hint in between; the
`(url, feed id)` uniqueness invariant is preserved, and inserting an
already-present key is a silent no-op. -/
theorem ingest_idempotent (G : GoTime) (db : DB) (feed feed2 : Feed) (lu lu2 : String)
    (items : List NormalizedItem)
    (hid : feed2.id = feed.id)
    (hfmt : feed2.dateFormat = feed.dateFormat ∨
      feed2.dateFormat =
        ⟨(processItems G feed (initState db.posts) items).detectedFormat, true⟩) :
    (ingest G (ingest G db feed lu items).1 feed2 lu2 items).1.posts
        = (ingest G db feed lu items).1.posts
    ∧ (keysUnique db.posts → keysUnique (ingest G db feed lu items).1.posts)
    ∧ (∀ (posts : List Post) (p : Post),
        hasKey posts p.url p.feedId → createPost posts p = posts)
    ∧ (feed ∈ db.feeds →
        (∀ f1 ∈ db.feeds, ∀ f2 ∈ db.feeds, f1.id = f2.id → f1 = f2) →
        ∀ fr ∈ (ingest G db feed lu items).1.feeds, fr.id = feed.id →
        fr.dateFormat = feed.dateFormat ∨
        fr.dateFormat =
          ⟨(processItems G feed (initState db.posts) items).detectedFormat, true⟩) := by
  have hpass2 : ∀ item ∈ items, ∀ t f,
      parseDateWithFormat G item.published feed2.dateFormat = some (t, f) →
      hasKey (ingest G db feed lu items).1.posts item.url feed2.id := by
    intro item hm t f h2
    rw [ingest_posts, hid]
    cases h1 : parseDateWithFormat G item.published feed.dateFormat with
    | some r =>
      obtain ⟨t1, f1⟩ := r
      exact processItems_key_present G feed items (initState db.posts) item hm t1 f1 h1
    | none =>
      exfalso
      have hdetInv := detectedInv_processItems G feed items (initState db.posts)
        (Or.inl rfl)
      have hnone : parseDateWithFormat G item.published feed2.dateFormat = none := by
        rcases hfmt with hfmt | hfmt
        · rw [hfmt]; exact h1
        · rw [hfmt]
          apply parse_fails_second_run G feed _ _ h1
          rcases hdetInv with hd | ⟨hv, hne, hd⟩ | hd
          · exact Or.inr (Or.inr hd)
          · exact Or.inl ⟨hd, hv, hne⟩
          · exact Or.inr (Or.inl hd)
      rw [hnone] at h2
      cases h2
  refine ⟨?_, ?_, ?_, ?_⟩
  · rw [ingest_posts G (ingest G db feed lu items).1 feed2 lu2 items]
    exact processItems_posts_of_all_present G feed2 items
      (initState (ingest G db feed lu items).1.posts) hpass2
  · intro hu
    rw [ingest_posts]
    exact keysUnique_processItems G feed items _ hu
  · intro posts p h
    exact createPost_of_hasKey posts p h
  · intro hmem huniq fr hfr hid2
    rw [ingest_eq] at hfr
    obtain ⟨fr1, hfr1, he1⟩ := mem_updateFeedDate _ _ _ fr hfr
    by_cases hcond : (processItems G feed (initState db.posts) items).needsFormatUpdate = true
        ∧ (processItems G feed (initState db.posts) items).detectedFormat ≠ ""
    · rw [if_pos hcond] at hfr1
      obtain ⟨fr0, hfr0, he0⟩ := mem_updateFeedFormat _ _ _ fr1 hfr1
      by_cases hi0 : fr0.id = feed.id
      · right
        rw [if_pos hi0] at he0
        rw [he1, he0]
        split
        · rfl
        · rfl
      · exfalso
        rw [if_neg hi0] at he0
        have hidd : fr.id = fr1.id := by
          rw [he1]
          split
          · rfl
          · rfl
        rw [hidd, he0] at hid2
        exact hi0 hid2
    · rw [if_neg hcond] at hfr1
      left
      have hdf : fr.dateFormat = fr1.dateFormat := by
        rw [he1]
        split
        · rfl
        · rfl
      have hidd : fr.id = fr1.id := by
        rw [he1]
        split
        · rfl
        · rfl
      have heq : fr1 = feed := huniq fr1 hfr1 feed hmem (by rw [← hidd, hid2])
      rw [hdf, heq]

theorem ingest_idempotent_witness :
    (ingest demoG (ingest demoG demoDB demoFeed "" [demoItem]).1 demoFeed "" [demoItem]).1.posts
        = (ingest demoG demoDB demoFeed "" [demoItem]).1.posts
    ∧ (keysUnique demoDB.posts →
        keysUnique (ingest demoG demoDB demoFeed "" [demoItem]).1.posts)
    ∧ (∀ (posts : List Post) (p : Post),
        hasKey posts p.url p.feedId → createPost posts p = posts)
    ∧ (demoFeed ∈ demoDB.feeds →
        (∀ f1 ∈ demoDB.feeds, ∀ f2 ∈ demoDB.feeds, f1.id = f2.id → f1 = f2) →
        ∀ fr ∈ (ingest demoG demoDB demoFeed "" [demoItem]).1.feeds, fr.id = demoFeed.id →
        fr.dateFormat = demoFeed.dateFormat ∨
        fr.dateFormat =
          ⟨(processItems demoG demoFeed (initState demoDB.posts) [demoItem]).detectedFormat,
           true⟩) :=
  ingest_idempotent demoG demoDB demoFeed demoFeed "" "" [demoItem] rfl (Or.inl rfl)

/-- C4: the first item of the batch whose date resolves determines the
detected format for that run; the coordinator issues the format-hint store
call at most once, positioned after all the batch's item inserts, and
exactly when the detected format differs from the stored hint or no hint
was stored. -/
theorem format_hint_update_policy (G : GoTime) (db : DB) (feed : Feed) (lu : String)
    (pre post : List NormalizedItem) (item : NormalizedItem) (t : Nat) (f : String)
    (hpre : ∀ p ∈ pre, parseDateWithFormat G p.published feed.dateFormat = none)
    (hitem : parseDateWithFormat G item.published feed.dateFormat = some (t, f)) :
    (processItems G feed (initState db.posts) (pre ++ item :: post)).detectedFormat = f
    ∧ ∃ itemOps : List DBOp, (∀ op ∈ itemOps, isCreatePostOp op = true) ∧
        (ingest G db feed lu (pre ++ item :: post)).2 =
          itemOps
          ++ (if feed.dateFormat.valid = false ∨ feed.dateFormat.string ≠ f then
                [DBOp.updateFeedFormat feed.id ⟨f, true⟩]
              else [])
          ++ [DBOp.updateFeedDate feed.id ⟨resolveLastUpdated G feed lu, true⟩] := by
  obtain ⟨hdet, hneeds⟩ := processItems_first_success G feed pre post item t f
    (initState db.posts) rfl hpre hitem
  have hneeds' : (processItems G feed (initState db.posts) (pre ++ item :: post)).needsFormatUpdate
      = (if feed.dateFormat.valid = false ∨ feed.dateFormat.string ≠ f then true
         else false) := by
    rw [hneeds, initState_needs]
  have hf : f ≠ "" := parseDateWithFormat_some_ne_empty _ _ _ _ _ hitem
  refine ⟨hdet, ?_⟩
  obtain ⟨itemOps, h1, h2⟩ := ingest_trace_shape G db feed lu (pre ++ item :: post)
  refine ⟨itemOps, h1, ?_⟩
  rw [h2, hdet, hneeds', ite_needs _ f hf _]

theorem format_hint_update_policy_witness :
    (processItems demoG demoFeed (initState demoDB.posts) ([] ++ demoItem :: [])).detectedFormat
        = RFC1123
    ∧ ∃ itemOps : List DBOp, (∀ op ∈ itemOps, isCreatePostOp op = true) ∧
        (ingest demoG demoDB demoFeed "" ([] ++ demoItem :: [])).2 =
          itemOps
          ++ (if demoFeed.dateFormat.valid = false ∨ demoFeed.dateFormat.string ≠ RFC1123 then
                [DBOp.updateFeedFormat demoFeed.id ⟨RFC1123, true⟩]
              else [])
          ++ [DBOp.updateFeedDate demoFeed.id
                ⟨resolveLastUpdated demoG demoFeed "", true⟩] :=
  format_hint_update_policy demoG demoDB demoFeed "" [] [] demoItem 42 RFC1123
    (by simp) (by decide)

/-- C10: when no item resolves, or when the first resolved format equals
the stored hint, no format-hint store call is issued and the stored hints
are untouched; items after the first successful one never influence the
format-hint store calls. -/
theorem format_hint_frame (G : GoTime) (db : DB) (feed : Feed) (lu : String) :
    (∀ items : List NormalizedItem,
      (∀ item ∈ items, parseDateWithFormat G item.published feed.dateFormat = none) →
      (ingest G db feed lu items).2.filter isFormatOp = []
      ∧ (ingest G db feed lu items).1.feeds.map (fun fr => fr.dateFormat)
          = db.feeds.map (fun fr => fr.dateFormat))
    ∧ (∀ (pre post : List NormalizedItem) (item : NormalizedItem) (t : Nat),
      (∀ p ∈ pre, parseDateWithFormat G p.published feed.dateFormat = none) →
      parseDateWithFormat G item.published feed.dateFormat
          = some (t, feed.dateFormat.string) →
      feed.dateFormat.valid = true →
      (ingest G db feed lu (pre ++ item :: post)).2.filter isFormatOp = []
      ∧ (ingest G db feed lu (pre ++ item :: post)).1.feeds.map (fun fr => fr.dateFormat)
          = db.feeds.map (fun fr => fr.dateFormat))
    ∧ (∀ (pre post : List NormalizedItem) (item : NormalizedItem) (t : Nat) (f : String),
      (∀ p ∈ pre, parseDateWithFormat G p.published feed.dateFormat = none) →
      parseDateWithFormat G item.published feed.dateFormat = some (t, f) →
      (ingest G db feed lu (pre ++ item :: post)).2.filter isFormatOp =
        (ingest G db feed lu (pre ++ [item])).2.filter isFormatOp) := by
  refine ⟨?_, ?_, ?_⟩
  · intro items hall
    have hfail := processItems_all_fail G feed items (initState db.posts) hall
    have hcond : ¬ ((processItems G feed (initState db.posts) items).needsFormatUpdate = true
        ∧ (processItems G feed (initState db.posts) items).detectedFormat ≠ "") := by
      intro hcontra
      have h1 := hcontra.1
      rw [hfail] at h1
      cases h1
    exact ⟨by rw [ingest_format_ops, if_neg hcond],
           ingest_dateFormats_of_no_update G db feed lu items hcond⟩
  · intro pre post item t hpre hitem hv
    obtain ⟨hdet, hneeds⟩ := processItems_first_success G feed pre post item t
      feed.dateFormat.string (initState db.posts) rfl hpre hitem
    have hcond : ¬ ((processItems G feed (initState db.posts) (pre ++ item :: post)).needsFormatUpdate = true
        ∧ (processItems G feed (initState db.posts) (pre ++ item :: post)).detectedFormat ≠ "") := by
      intro hcontra
      have h1 := hcontra.1
      rw [hneeds, initState_needs] at h1
      have hc : ¬ (feed.dateFormat.valid = false ∨
          feed.dateFormat.string ≠ feed.dateFormat.string) := by
        intro hor
        rcases hor with hor | hor
        · rw [hv] at hor; cases hor
        · exact hor rfl
      rw [if_neg hc] at h1
      cases h1
    exact ⟨by rw [ingest_format_ops, if_neg hcond],
           ingest_dateFormats_of_no_update G db feed lu (pre ++ item :: post) hcond⟩
  · intro pre post item t f hpre hitem
    obtain ⟨hd1, hn1⟩ := processItems_first_success G feed pre post item t f
      (initState db.posts) rfl hpre hitem
    obtain ⟨hd2, hn2⟩ := processItems_first_success G feed pre [] item t f
      (initState db.posts) rfl hpre hitem
    rw [ingest_format_ops, ingest_format_ops, hd1, hd2, hn1, hn2]

theorem format_hint_frame_witness :
    ((ingest demoG demoDB demoFeed "" [badItem]).2.filter isFormatOp = []
      ∧ (ingest demoG demoDB demoFeed "" [badItem]).1.feeds.map (fun fr => fr.dateFormat)
          = demoDB.feeds.map (fun fr => fr.dateFormat))
    ∧ (ingest demoG demoDB demoFeed "" ([] ++ demoItem :: [goodItem])).2.filter isFormatOp =
        (ingest demoG demoDB demoFeed "" ([] ++ [demoItem])).2.filter isFormatOp :=
  ⟨(format_hint_frame demoG demoDB demoFeed "").1 [badItem] (by decide),
   (format_hint_frame demoG demoDB demoFeed "").2.2 [] [goodItem] demoItem 42 RFC1123
     (by simp) (by decide)⟩

/-- C5: in a batch where exactly one item's date fails to resolve, the item
loop persists every other item (N − 1 new posts when they are fresh and
distinct), skips exactly the failing item, and the feed is still processed
to completion — an `rss` feed never aborts the run. -/
theorem per_item_isolation (G : GoTime) (E : FetchEnv) (feed : Feed) (db : DB)
    (pre post : List NormalizedItem) (bad : NormalizedItem)
    (hfail : parseDateWithFormat G bad.published feed.dateFormat = none)
    (hsucc : ∀ item ∈ pre ++ post,
        (parseDateWithFormat G item.published feed.dateFormat).isSome = true)
    (hfresh : ∀ item ∈ pre ++ post, ¬ hasKey db.posts item.url feed.id)
    (hnd : ((pre ++ post).map fun item => item.url).Nodup) :
    (processItems G feed (initState db.posts) (pre ++ bad :: post)).posts.length
        = db.posts.length + (pre.length + post.length)
    ∧ (processItems G feed (initState db.posts) (pre ++ bad :: post)).skipped = [bad]
    ∧ (feed.feedType = "rss" → ∀ rss0 : RSS, E.fetchRSS feed.url = Except.ok rss0 →
        normalizeRSS rss0.channel = pre ++ bad :: post →
        processFeed G E db feed
          = Except.ok (ingest G db feed rss0.channel.lastUpdated (pre ++ bad :: post)).1) := by
  rw [List.map_append, List.nodup_append] at hnd
  obtain ⟨hndPre, hndPost, hdisj⟩ := hnd
  have hsuccPre : ∀ item ∈ pre,
      (parseDateWithFormat G item.published feed.dateFormat).isSome = true :=
    fun i hi => hsucc i (List.mem_append_left _ hi)
  have hfreshPre : ∀ item ∈ pre, ¬ hasKey (initState db.posts).posts item.url feed.id :=
    fun i hi => hfresh i (List.mem_append_left _ hi)
  obtain ⟨hlenPre, hskipPre⟩ :=
    processItems_all_succeed G feed pre (initState db.posts) hsuccPre hfreshPre hndPre
  have hfreshPost : ∀ item ∈ post,
      ¬ hasKey (processItem G feed (processItems G feed (initState db.posts) pre) bad).posts
          item.url feed.id := by
    intro item hm hk
    rw [processItem_none_posts G feed _ bad hfail] at hk
    rcases hasKey_processItems_elim G feed pre (initState db.posts) _ _ hk with
      h2 | ⟨p, hp, hup, _⟩
    · exact hfresh item (List.mem_append_right _ hm) h2
    · apply hdisj (List.mem_map_of_mem _ hp)
      rw [← hup]
      exact List.mem_map_of_mem _ hm
  have hsuccPost : ∀ item ∈ post,
      (parseDateWithFormat G item.published feed.dateFormat).isSome = true :=
    fun i hi => hsucc i (List.mem_append_right _ hi)
  obtain ⟨hlenPost, hskipPost⟩ :=
    processItems_all_succeed G feed post
      (processItem G feed (processItems G feed (initState db.posts) pre) bad)
      hsuccPost hfreshPost hndPost
  refine ⟨?_, ?_, ?_⟩
  · rw [processItems_append, processItems_cons, hlenPost,
        processItem_none_posts G feed _ bad hfail, hlenPre, initState_posts]
    omega
  · rw [processItems_append, processItems_cons, hskipPost,
        processItem_none_skipped G feed _ bad hfail, hskipPre, initState_skipped]
    simp
  · intro hrss rss0 hfetch hnorm
    rw [processFeed_rss G E db feed hrss]
    unfold getRSSFeed
    rw [hfetch]
    show Except.ok (ingest G db feed rss0.channel.lastUpdated (normalizeRSS rss0.channel)).1
        = Except.ok (ingest G db feed rss0.channel.lastUpdated (pre ++ bad :: post)).1
    rw [hnorm]

theorem per_item_isolation_witness :
    (processItems demoG demoFeed (initState demoDB.posts)
        ([goodItem] ++ badItem :: [])).posts.length = 1
    ∧ (processItems demoG demoFeed (initState demoDB.posts)
        ([goodItem] ++ badItem :: [])).skipped = [badItem]
    ∧ (demoFeed.feedType = "rss" → ∀ rss0 : RSS,
        demoEnv.fetchRSS demoFeed.url = Except.ok rss0 →
        normalizeRSS rss0.channel = [goodItem] ++ badItem :: [] →
        processFeed demoG demoEnv demoDB demoFeed
          = Except.ok (ingest demoG demoDB demoFeed rss0.channel.lastUpdated
              ([goodItem] ++ badItem :: [])).1) :=
  per_item_isolation demoG demoEnv demoFeed demoDB [goodItem] [] badItem
    (by decide) (by decide) (by decide) (by decide)

/-- C6: a feed whose declared type is none of `rss`, `atom`, `custom` is
skipped silently — the store is left exactly as it was, so zero posts are
persisted for it — while a feed declared `custom` halts the whole run with
the explicit unimplemented signal. -/
theorem feed_type_dispatch (G : GoTime) (E : FetchEnv) (db : DB) (feed : Feed) :
    (feed.feedType ≠ "rss" → feed.feedType ≠ "atom" → feed.feedType ≠ "custom" →
      processFeed G E db feed = Except.ok db)
    ∧ (feed.feedType = "custom" →
      ∀ rest : List Feed, runFeeds G E (feed :: rest) db
        = Except.error Halt.customUnimplemented) := by
  constructor
  · intro h1 h2 h3
    unfold processFeed
    split
    next h => exact absurd h h1
    next h => exact absurd h h2
    next h => exact absurd h h3
    next => rfl
  · intro h rest
    exact runFeeds_custom G E feed rest db h

theorem feed_type_dispatch_witness :
    processFeed demoG demoEnv demoDB weirdFeed = Except.ok demoDB
    ∧ runFeeds demoG demoEnv [customFeed] demoDB
        = Except.error Halt.customUnimplemented :=
  ⟨(feed_type_dispatch demoG demoEnv demoDB weirdFeed).1 (by decide) (by decide) (by decide),
   (feed_type_dispatch demoG demoEnv demoDB customFeed).2 rfl []⟩

/-! ## Claims C7, C8 (corrected) and C9 -/

/-- An environment in which every RSS fetch yields one well-formed item. -/
def cexRSS : RSS :=
  { channel := { items := [{ title := "t", link := "https://x/2", published := "demo" }],
                 lastUpdated := "demo" } }

def cexEnv : FetchEnv :=
  { fetchRSS := fun _ => Except.ok cexRSS,
    fetchAtom := fun _ => Except.error "down" }

def cexDB : DB := { feeds := [customFeed, demoFeed], posts := [] }

/-- C7 counterexample: a `custom` feed followed by a perfectly processable
`rss` feed.  The run halts at the `custom` feed with the unimplemented
signal and never reaches a final store — the later feed is not fetched or
processed, so the failure is not local to the `custom` feed. -/
theorem custom_halts_run_counterexample :
    runMain demoG cexEnv cexDB = Except.error Halt.customUnimplemented
    ∧ ∀ db2 : DB, runMain demoG cexEnv cexDB ≠ Except.ok db2 := by
  constructor
  · rfl
  · intro db2 h
    rw [show runMain demoG cexEnv cexDB = Except.error Halt.customUnimplemented
        from rfl] at h
    cases h

/-- C7 (amended): when the coordinator encounters a feed of declared type
`custom`, the failure is fatal to the entire run: the loop stops with the
unimplemented signal and the feeds after it in the list are not fetched or
processed. -/
theorem custom_fatal_whole_run (G : GoTime) (E : FetchEnv) (db : DB) (feed : Feed)
    (rest : List Feed) (h : feed.feedType = "custom") :
    runFeeds G E (feed :: rest) db = Except.error Halt.customUnimplemented :=
  runFeeds_custom G E feed rest db h

theorem custom_fatal_whole_run_witness :
    runFeeds demoG cexEnv (customFeed :: [demoFeed]) cexDB
      = Except.error Halt.customUnimplemented :=
  custom_fatal_whole_run demoG cexEnv cexDB customFeed [demoFeed] rfl

/-- Store state for the C8 counterexample: a feed with a stored
last-updated timestamp. -/
def c8Feed : Feed :=
  { id := 1, name := "c8", lastUpdatedAt := ⟨"2020-01-01T00:00:00Z", true⟩,
    url := "u8", feedType := "rss", dateFormat := ⟨"", false⟩ }

def c8DB : DB := { feeds := [c8Feed], posts := [] }

/-- C8 counterexample: with no feed-level raw last-updated string (empty),
the stored last-updated value does not survive — the coordinator calls the
date update unconditionally and overwrites it with the empty string. -/
theorem feed_last_updated_overwrite_counterexample :
    ((ingest demoG c8DB c8Feed "" []).1.feeds.map fun fr => fr.lastUpdatedAt)
        = [⟨"", true⟩]
    ∧ ((ingest demoG c8DB c8Feed "" []).1.feeds.map fun fr => fr.lastUpdatedAt)
        ≠ [c8Feed.lastUpdatedAt] := by
  constructor
  · rfl
  · decide

/-- C8 (amended): after the items, the feed-level raw last-updated string is
resolved with the same hint/fallback policy; on success the canonical
re-encoding is persisted, on failure the raw string is persisted unchanged —
and the date update is unconditional: when no raw string is present the
feed's stored last-updated value is overwritten with the empty string. -/
theorem feed_last_updated_policy (G : GoTime) (db : DB) (feed : Feed) (lu : String)
    (items : List NormalizedItem) :
    (ingest G db feed lu items).2.getLast?
        = some (DBOp.updateFeedDate feed.id ⟨resolveLastUpdated G feed lu, true⟩)
    ∧ (∀ fr ∈ (ingest G db feed lu items).1.feeds, fr.id = feed.id →
        fr.lastUpdatedAt = ⟨resolveLastUpdated G feed lu, true⟩)
    ∧ (∀ t f, lu ≠ "" → parseDateWithFormat G lu feed.dateFormat = some (t, f) →
        resolveLastUpdated G feed lu = G.formatRFC3339 t)
    ∧ (lu ≠ "" → parseDateWithFormat G lu feed.dateFormat = none →
        resolveLastUpdated G feed lu = lu)
    ∧ (lu = "" → resolveLastUpdated G feed lu = "") := by
  refine ⟨?_, ?_, ?_, ?_, ?_⟩
  · rw [ingest_eq]
    exact List.getLast?_concat _
  · rw [ingest_eq]
    intro fr hm hid
    exact updateFeedDate_row _ _ _ fr hm hid
  · intro t f hne hp
    unfold resolveLastUpdated
    rw [if_pos hne, hp]
  · intro hne hp
    unfold resolveLastUpdated
    rw [if_pos hne, hp]
  · intro he
    subst he
    unfold resolveLastUpdated
    rw [if_neg (fun hc => hc rfl)]

theorem feed_last_updated_policy_witness :
    resolveLastUpdated demoG demoFeed "demo" = demoG.formatRFC3339 42
    ∧ resolveLastUpdated demoG demoFeed "nope" = "nope"
    ∧ resolveLastUpdated demoG c8Feed "" = "" :=
  ⟨(feed_last_updated_policy demoG demoDB demoFeed "demo" []).2.2.1 42 RFC1123
      (by decide) (by decide),
   (feed_last_updated_policy demoG demoDB demoFeed "nope" []).2.2.2.1
      (by decide) (by decide),
   (feed_last_updated_policy demoG c8DB c8Feed "" []).2.2.2.2 rfl⟩

instance : Inhabited RSSItem := ⟨⟨"", "", ""⟩⟩

instance : Inhabited AtomItem := ⟨⟨"", ⟨""⟩, ""⟩⟩

/-- C9: the normalizer passes titles and URLs through unchanged, item for
item and in order (the Atom URL being the link's `href` attribute), and the
post the coordinator persists carries the item's title and URL verbatim. -/
theorem normalizer_pass_through (c : Channel) (a : Atom) :
    (normalizeRSS c).length = c.items.length
    ∧ (∀ i, i < c.items.length →
        (normalizeRSS c).getD i default =
          { title := (c.items.getD i default).title,
            url := (c.items.getD i default).link,
            published := (c.items.getD i default).published })
    ∧ (normalizeAtom a).length = a.items.length
    ∧ (∀ i, i < a.items.length →
        (normalizeAtom a).getD i default =
          { title := (a.items.getD i default).title,
            url := (a.items.getD i default).link.href,
            published := (a.items.getD i default).published })
    ∧ (∀ (G : GoTime) (feed : Feed) (st : ItemLoopState) (item : NormalizedItem)
          (t : Nat) (f : String),
        parseDateWithFormat G item.published feed.dateFormat = some (t, f) →
        DBOp.createPost
            { title := item.title, url := item.url,
              publishedAt := G.formatRFC3339 t, feedId := feed.id }
          ∈ (processItem G feed st item).ops) := by
  refine ⟨by simp [normalizeRSS], ?_, by simp [normalizeAtom], ?_, ?_⟩
  · intro i hi
    simp [normalizeRSS, List.getD_eq_getElem?_getD, List.getElem?_map,
      List.getElem?_eq_getElem hi]
  · intro i hi
    simp [normalizeAtom, List.getD_eq_getElem?_getD, List.getElem?_map,
      List.getElem?_eq_getElem hi]
  · intro G feed st item t f hp
    rw [processItem_some_eq G feed st item t f hp]
    exact List.mem_append_right _ (List.mem_singleton.mpr rfl)

def demoAtom : Atom :=
  { items := [{ title := "", link := { href := "https://x/1" }, published := "demo" }],
    lastUpdated := "" }

def demoChannel : Channel := { items := [], lastUpdated := "" }

theorem normalizer_pass_through_witness :
    (normalizeAtom demoAtom).getD 0 default =
      { title := "", url := "https://x/1", published := "demo" }
    ∧ DBOp.createPost
          { title := "", url := "https://x/1",
            publishedAt := demoG.formatRFC3339 42, feedId := 7 }
        ∈ (processItem demoG demoFeed (initState [])
            { title := "", url := "https://x/1", published := "demo" }).ops :=
  ⟨(normalizer_pass_through demoChannel demoAtom).2.2.2.1 0 (by decide),
   (normalizer_pass_through demoChannel demoAtom).2.2.2.2 demoG demoFeed (initState [])
      { title := "", url := "https://x/1", published := "demo" } 42 RFC1123 (by decide)⟩

end Feeder
